import Mathlib

/-!
Verification of `lib/spectron-support.js` (mongodb-js/test-utils).

The JavaScript source is shallowly embedded: each helper command is modelled
as a pure Lean function producing either a value, an `Except` error, or the
ordered list of remote-client operations it issues.  JavaScript values that
matter for the control flow (truthiness, `undefined`, strict inequality)
are modelled by the `JSVal` type.
-/

namespace SpectronSupport

/-- A JavaScript value as far as this module's control flow observes it:
`undef` models both an absent object key and an explicit `undefined`;
strings and (integer) numbers cover every value the connection models use. -/
inductive JSVal where
  | undef
  | str (s : String)
  | num (n : Int)
deriving DecidableEq, Repr

/-- JavaScript truthiness for the values in `JSVal`: `undefined` is falsy,
a string is truthy iff non-empty, a number is truthy iff non-zero. -/
def JSVal.truthy : JSVal → Bool
  | .undef => false
  | .str s => !s.isEmpty
  | .num n => n != 0

/-- `format('input[name=%s]', field)` from the source. -/
def inputSelector (field : String) : String := "input[name=" ++ field ++ "]"

/-- One primitive remote-client operation issued by a helper command, in the
order the promise chain issues them. -/
inductive Op where
  | setValue (selector : String) (value : JSVal)
  | selectByValue (selector : String) (value : JSVal)
  | click (selector : String)
  | waitForVisible (selector : String) (ms : Option Nat) (reverse : Bool)
  | waitForExist (selector : String) (ms : Nat)
  | waitForWindowStep (index : Nat) (ms : Option Nat)
deriving DecidableEq, Repr

/-- `var staticFields = ['hostname', 'port', 'name'];` -/
def staticFields : List String := ["hostname", "port", "name"]

/-- `var sslFields = ['ssl_ca', 'ssl_certificate', 'ssl_private_key',
'ssl_private_key_password'];` -/
def sslFields : List String :=
  ["ssl_ca", "ssl_certificate", "ssl_private_key", "ssl_private_key_password"]

/-- The static-field part of `fillOutForm`: for each static field, the step
`if (model[field]) { sequence = sequence.then(() => setValue(...)) }` —
a falsy field contributes no operation. -/
def staticOps (model : String → JSVal) : List Op :=
  staticFields.filterMap fun field =>
    if (model field).truthy then
      some (Op.setValue (inputSelector field) (model field))
    else none

/-- The authentication part of `fillOutForm`:
`if (model.authentication && model.authentication !== 'NONE')` selects the
authentication kind and then fills each field of
`Connection.getFieldNames(model.authentication)` that is truthy in the model.
`getFieldNames` is the external lookup (the `Connection` module is not part
of this source file), passed in as a parameter. -/
def authOps (getFieldNames : JSVal → List String) (model : String → JSVal) : List Op :=
  if (model "authentication").truthy && (model "authentication" != JSVal.str "NONE") then
    Op.selectByValue "select[name=authentication]" (model "authentication") ::
      (getFieldNames (model "authentication")).filterMap (fun field =>
        if (model field).truthy then
          some (Op.setValue (inputSelector field) (model field))
        else none)
  else []

/-- The SSL part of `fillOutForm`:
`if (model.ssl && model.ssl !== 'NONE')` selects the ssl kind and fills each
of the four fixed ssl fields that is truthy in the model. -/
def sslOps (model : String → JSVal) : List Op :=
  if (model "ssl").truthy && (model "ssl" != JSVal.str "NONE") then
    Op.selectByValue "select[name=ssl]" (model "ssl") ::
      sslFields.filterMap (fun field =>
        if (model field).truthy then
          some (Op.setValue (inputSelector field) (model field))
        else none)
  else []

/-- `fillOutForm(model)`: the ordered list of operations its promise chain
issues — static fields, then authentication, then ssl. -/
def fillOutForm (getFieldNames : JSVal → List String) (model : String → JSVal) : List Op :=
  staticOps model ++ authOps getFieldNames model ++ sslOps model

/-- The model of a missing/empty connection object (`connection || {}`). -/
def emptyModel : String → JSVal := fun _ => JSVal.undef

/-- `_.defaults(connection || {}, { hostname: 'localhost', port: 27017 })`:
keys whose value is `undefined` (or absent) receive the default, all other
keys keep their value. -/
def defaultsConnection (m : String → JSVal) : String → JSVal :=
  fun key =>
    if m key != JSVal.undef then m key
    else if key = "hostname" then JSVal.str "localhost"
    else if key = "port" then JSVal.num 27017
    else JSVal.undef

/-- `clickConnect()`: `this.click('button[name=connect]')`. -/
def clickConnect : Op := Op.click "button[name=connect]"

/-- `gotoSchemaWindow(connection, ms)`: applies the defaults, waits for the
form, fills it, clicks connect, then waits for the schema window, which is
`waitForWindow(0, ms, interval)`. -/
def gotoSchemaWindow (getFieldNames : JSVal → List String)
    (connection : Option (String → JSVal)) (ms : Option Nat) : List Op :=
  let conn := defaultsConnection (connection.getD emptyModel)
  Op.waitForVisible "select[name=authentication]" none false ::
    (fillOutForm getFieldNames conn ++ [clickConnect, Op.waitForWindowStep 0 ms])

/-- `waitForStatusBar()`: `this.waitForVisible('div#statusbar', 15000, true)`. -/
def waitForStatusBar : List Op := [Op.waitForVisible "div#statusbar" (some 15000) true]

/-- The selector `'a span[title="' + name + '"]'` used by `selectCollection`. -/
def spanTitleSelector (name : String) : String := "a span[title=\"" ++ name ++ "\"]"

/-- `selectCollection(name)`: wait for the status bar, wait for the sidebar
entry whose title attribute equals `name`, click it, wait for the field list. -/
def selectCollection (name : String) : List Op :=
  waitForStatusBar ++
    [Op.waitForVisible (spanTitleSelector name) none false,
     Op.click (spanTitleSelector name),
     Op.waitForVisible "div.schema-field-list" none false]

/-- The `x = x || d` defaulting idiom for an optional numeric argument:
an absent or zero (falsy) value becomes the default `d`. -/
def orDefault (ms : Option Nat) (d : Nat) : Nat :=
  match ms with
  | none => d
  | some m => if m = 0 then d else m

/-- The selector `format('.sidebar .list-group-item span[title="%s"]', name)`
used by `sampleCollection`. -/
def sidebarItemSelector (name : String) : String :=
  ".sidebar .list-group-item span[title=\"" ++ name ++ "\"]"

/-- The fixed suffix appended for internal collections. -/
def internalSuffix : String := " (internal collection)"

/-- `sampleCollection(collectionName, internal, ms)`: defaults `ms` to 10000,
appends the internal suffix when `internal` is set, waits for the sidebar
item to exist, clicks it, then waits for `#statusbar` to become visible and
afterwards to become not visible (reverse wait). -/
def sampleCollection (collectionName : String) (internal : Bool) (ms0 : Option Nat) : List Op :=
  let ms := orDefault ms0 10000
  let name := if internal then collectionName ++ internalSuffix else collectionName
  let selector := sidebarItemSelector name
  [Op.waitForExist selector ms, Op.click selector,
   Op.waitForVisible "#statusbar" (some ms) false,
   Op.waitForVisible "#statusbar" (some ms) true]

/-- The timeout failure of the polling wait engine: it carries the elapsed
duration and the last observed predicate result. -/
structure TimeoutError where
  elapsed : Nat
  lastResult : Bool
deriving DecidableEq, Repr

/-- Modelled from the spec: `waitUntil` is provided by the underlying
webdriverio client, not by this source file; §4.1 of the spec (Polling Wait
Engine) specifies it.  `pollLoop P interval fuel tick` evaluates the
predicate at tick `tick` (time `tick * interval`), resolves with the
resolution time as soon as the predicate is true, and after `fuel`
evaluations gives up with a `TimeoutError` carrying the elapsed time and the
last observed (false) result. -/
def pollLoop (P : Nat → Bool) (interval : Nat) : Nat → Nat → Except TimeoutError Nat
  | 0, tick => Except.error ⟨tick * interval, false⟩
  | fuel + 1, tick =>
    if P tick then Except.ok (tick * interval) else pollLoop P interval fuel (tick + 1)

/-- Modelled from the spec: `waitUntil(predicate, timeoutMs, intervalMs)`
polls at ticks `0, 1, ..., timeoutMs / intervalMs` (times
`0, intervalMs, ...` up to `timeoutMs`) and times out once the elapsed time
would exceed `timeoutMs`. -/
def waitUntil (P : Nat → Bool) (timeoutMs intervalMs : Nat) : Except TimeoutError Nat :=
  pollLoop P intervalMs (timeoutMs / intervalMs + 1) 0

/-- The predicate inside `waitForWindow`:
`newWindowHandle = handles[index]; return newWindowHandle !== connectHandle;`
`handles[index]` is `none` (JavaScript `undefined`) when `index` is beyond
the current window count, and `!==` compares it against the captured handle. -/
def windowPredicate (handles : List String) (index : Nat) (connectHandle : String) : Bool :=
  handles[index]? != some connectHandle

/-- `waitForWindow(index, ms, interval)`: defaults `ms` to 20000 and
`interval` to 1000, captures the current window handle, and runs `waitUntil`
with `windowPredicate` over the polled handle list (`handlesAt k` is the
handle list observed at poll tick `k`).  Returns the resolution time. -/
def waitForWindow (handlesAt : Nat → List String) (connectHandle : String)
    (index : Nat) (ms interval : Option Nat) : Except TimeoutError Nat :=
  waitUntil (fun k => windowPredicate (handlesAt k) index connectHandle)
    (orDefault ms 20000) (orDefault interval 1000)

/-- A spectron `Application` as far as `createApplication` constructs one. -/
structure Application where
  path : String
  args : List String
deriving DecidableEq, Repr

/-- The errors `createApplication` can raise: a failed `assert` (an
`AssertionError` with the given message), a `ReferenceError` for an unbound
identifier, and a `TypeError` (e.g. `path.join` on `undefined`). -/
inductive JsError where
  | assertionError (msg : String)
  | referenceError (msg : String)
  | typeError (msg : String)
deriving DecidableEq, Repr

/-- `ELECTRON_EXECUTABLE_BY_PLATFORM`: the executable path (relative to the
dist directory) per platform; `none` models the absent key for any other
platform. -/
def ELECTRON_EXECUTABLE_BY_PLATFORM (platform : String) : Option String :=
  if platform = "linux" then some "mongodb-compass-linux-x64/mongodb-compass"
  else if platform = "win32" then some "MongoDBCompass-win32-x64/MongoDBCompass.exe"
  else if platform = "darwin" then
    some "MongoDB Compass-darwin-x64/MongoDB Compass.app/Contents/MacOS/Electron"
  else none

/-- `electronExecutable(distDir)`:
`path.join(distDir, ELECTRON_EXECUTABLE_BY_PLATFORM[process.platform])`. -/
def electronExecutable (platform distDir : String) : Option String :=
  (ELECTRON_EXECUTABLE_BY_PLATFORM platform).map (fun rel => distDir ++ "/" ++ rel)

/-- The identifiers bound in the module scope of `spectron-support.js`: the
nine `require` bindings and the module's own declarations.  Node provides no
global `assert`, so an identifier not in this list is unbound. -/
def moduleScopeBindings : List String :=
  ["_", "chai", "chaiAsPromised", "fs", "format", "path", "electronPrebuilt",
   "Application", "debug", "ELECTRON_EXECUTABLE_BY_PLATFORM", "electronExecutable",
   "responseValue", "createApplication", "startApplication", "stopApplication",
   "addCommands"]

/-- Whether the identifier `assert` used on line 68 resolves in the module
scope.  Evaluating an unbound identifier throws a `ReferenceError`. -/
def assertIsBound : Bool := moduleScopeBindings.contains "assert"

/-- The message of the `assert` call guarding the release executable. -/
def releaseExecutableMsg : String :=
  "Release executable not found!  Did you run `npm run prepublish`?"

/-- The environment `createApplication` reads: the truthiness of
`process.env.TEST_WITH_PREBUILT`, `process.platform`, the resolved
`electron-prebuilt` path, and the file system's `fs.existsSync`. -/
structure NodeEnv where
  testWithPrebuilt : Bool
  platform : String
  electronPrebuiltPath : String
  fileExists : String → Bool

/-- `createApplication(distDir)`: with the prebuilt flag set it constructs an
`Application` over `electron-prebuilt`; otherwise it resolves the release
executable and executes `assert(fs.existsSync(executable), msg)` — which
first evaluates the identifier `assert`, unbound in this module. -/
def createApplication (env : NodeEnv) (distDir : String) : Except JsError Application :=
  if env.testWithPrebuilt then
    Except.ok { path := env.electronPrebuiltPath, args := [distDir ++ "/.."] }
  else
    match electronExecutable env.platform distDir with
    | none => Except.error (JsError.typeError "path argument must be of type string")
    | some executable =>
      if assertIsBound then
        if env.fileExists executable then Except.ok { path := executable, args := [] }
        else Except.error (JsError.assertionError releaseExecutableMsg)
      else Except.error (JsError.referenceError "assert is not defined")

/-- A running spectron application handle as `stopApplication` observes it:
`isRunning()` returns `running`; `stop()` returns a deferred, identified here
by `stopToken`. -/
structure SpectronApp where
  running : Bool
  stopToken : Nat
deriving DecidableEq, Repr

/-- `stopApplication(app)`: `if (app && app.isRunning()) { return app.stop(); }`
— returns the stop deferred exactly when `app` is non-null and running, and
`none` (JavaScript `undefined`, no operation) otherwise. -/
def stopApplication (app : Option SpectronApp) : Option Nat :=
  match app with
  | none => none
  | some a => if a.running then some a.stopToken else none

end SpectronSupport

namespace SpectronSupport

/-- A one-window handle history: only the connect window `"connect-window"`
ever exists, so any `index ≥ 1` is beyond the window count at every poll. -/
def handlesOneWindow : Nat → List String := fun _ => ["connect-window"]

/-- **C1.** The claim states that `waitForWindow(1, ...)`, invoked while the
handle list has a single entry, does not resolve until a window exists at
index 1.  The code refutes it: `handles[1]` is `undefined`, and the predicate
`handles[1] !== connectHandle` is then `true`, so the wait resolves
immediately (at time 0) although no window exists at index 1. -/
theorem waitForWindow_undefined_short_circuits :
    waitForWindow handlesOneWindow "connect-window" 1 none none = Except.ok 0 ∧
      (handlesOneWindow 0)[1]? = none := by
  constructor <;> rfl

/-- A node environment with the prebuilt flag unset and the release
executable present on disk. -/
def envExecutableExists : NodeEnv :=
  { testWithPrebuilt := false, platform := "linux",
    electronPrebuiltPath := "/electron-prebuilt", fileExists := fun _ => true }

/-- The same environment with the release executable missing. -/
def envExecutableMissing : NodeEnv :=
  { testWithPrebuilt := false, platform := "linux",
    electronPrebuiltPath := "/electron-prebuilt", fileExists := fun _ => false }

/-- **C2.** The claim states that with the prebuilt flag unset,
`createApplication` raises the remediation message when the executable is
missing and constructs an `Application` when it exists.  The code refutes
both: the module never binds `assert` (no `require('assert')`, and Node has
no global `assert`), so line 68 throws `ReferenceError: assert is not
defined` whether or not the executable exists. -/
theorem createApplication_reference_error :
    createApplication envExecutableExists "/dist"
        = Except.error (JsError.referenceError "assert is not defined") ∧
      createApplication envExecutableMissing "/dist"
        = Except.error (JsError.referenceError "assert is not defined") ∧
      assertIsBound = false := by
  refine ⟨?_, ?_, ?_⟩ <;> rfl

/-- **C6.** For every collection name `s`, `sampleCollection(s, true, ms)`
waits for and clicks the sidebar item whose title attribute is exactly
`s ++ " (internal collection)"`, while `sampleCollection(s, false, ms)` and
`selectCollection(s)` target the title attribute equal to the bare name `s`. -/
theorem sampleCollection_title_matching (s : String) (ms : Option Nat) :
    Op.waitForExist (sidebarItemSelector (s ++ internalSuffix)) (orDefault ms 10000)
        ∈ sampleCollection s true ms ∧
      Op.click (sidebarItemSelector (s ++ internalSuffix)) ∈ sampleCollection s true ms ∧
      Op.waitForExist (sidebarItemSelector s) (orDefault ms 10000)
        ∈ sampleCollection s false ms ∧
      Op.click (sidebarItemSelector s) ∈ sampleCollection s false ms ∧
      Op.waitForVisible (spanTitleSelector s) none false ∈ selectCollection s ∧
      Op.click (spanTitleSelector s) ∈ selectCollection s := by
  refine ⟨?_, ?_, ?_, ?_, ?_, ?_⟩ <;>
    simp [sampleCollection, selectCollection, waitForStatusBar]

/-- **C10.** `stopApplication(app)` returns the stop deferred exactly when
`app` is non-null and `isRunning()` is true, and returns nothing (performing
no operation and raising no error) exactly when `app` is null/undefined or
not running. -/
theorem stopApplication_only_when_running (app : Option SpectronApp) (d : Nat) :
    (stopApplication app = some d ↔
        ∃ a, app = some a ∧ a.running = true ∧ a.stopToken = d) ∧
      (stopApplication app = none ↔
        app = none ∨ ∃ a, app = some a ∧ a.running = false) := by
  cases app with
  | none => simp [stopApplication]
  | some a =>
    by_cases h : a.running <;> simp [stopApplication, h]

/-- Witness for C10: a running application's stop deferred is returned. -/
theorem stopApplication_only_when_running_witness :
    stopApplication (some ⟨true, 7⟩) = some 7 :=
  ((stopApplication_only_when_running (some ⟨true, 7⟩) 7).1).mpr
    ⟨⟨true, 7⟩, rfl, rfl, rfl⟩

/-- Distinct field names yield distinct `input[name=...]` selectors. -/
theorem inputSelector_injective {f g : String} (h : inputSelector f = inputSelector g) :
    f = g := by
  unfold inputSelector at h
  have hd := congrArg String.data h
  simp [String.data_append] at hd
  exact String.ext hd

/-- `staticOps` written out field by field. -/
theorem staticOps_eq (m : String → JSVal) :
    staticOps m =
      (if (m "hostname").truthy then
          [Op.setValue (inputSelector "hostname") (m "hostname")] else []) ++
        (if (m "port").truthy then
          [Op.setValue (inputSelector "port") (m "port")] else []) ++
        (if (m "name").truthy then
          [Op.setValue (inputSelector "name") (m "name")] else []) := by
  by_cases h1 : (m "hostname").truthy <;> by_cases h2 : (m "port").truthy <;>
    by_cases h3 : (m "name").truthy <;>
    simp [staticOps, staticFields, h1, h2, h3]

/-- Every operation of the static block sets a truthy static field. -/
theorem mem_staticOps {m : String → JSVal} {op : Op} (h : op ∈ staticOps m) :
    ∃ f, f ∈ staticFields ∧ (m f).truthy = true ∧
      op = Op.setValue (inputSelector f) (m f) := by
  obtain ⟨f, hf, hfe⟩ := List.mem_filterMap.mp h
  split at hfe
  · exact ⟨f, hf, by assumption, (Option.some.inj hfe).symm⟩
  · exact absurd hfe (by simp)

/-- An operation of the authentication block exists only when the guard
holds, and is either the kind selection or a truthy dependent field set. -/
theorem mem_authOps {g : JSVal → List String} {m : String → JSVal} {op : Op}
    (h : op ∈ authOps g m) :
    (m "authentication").truthy = true ∧ m "authentication" ≠ JSVal.str "NONE" ∧
      (op = Op.selectByValue "select[name=authentication]" (m "authentication") ∨
        ∃ f, f ∈ g (m "authentication") ∧ (m f).truthy = true ∧
          op = Op.setValue (inputSelector f) (m f)) := by
  unfold authOps at h
  split at h
  case isTrue hc =>
    have h1 : (m "authentication").truthy = true := by
      have := hc
      simp only [Bool.and_eq_true] at this
      exact this.1
    have h2 : m "authentication" ≠ JSVal.str "NONE" := by
      have := hc
      simp only [Bool.and_eq_true, bne_iff_ne] at this
      exact this.2
    refine ⟨h1, h2, ?_⟩
    rcases List.mem_cons.mp h with h | h
    · exact Or.inl h
    · obtain ⟨f, hf, hfe⟩ := List.mem_filterMap.mp h
      split at hfe
      · exact Or.inr ⟨f, hf, by assumption, (Option.some.inj hfe).symm⟩
      · exact absurd hfe (by simp)
  case isFalse => simp at h

/-- An operation of the SSL block exists only when the guard holds, and is
either the kind selection or a truthy SSL field set. -/
theorem mem_sslOps {m : String → JSVal} {op : Op} (h : op ∈ sslOps m) :
    (m "ssl").truthy = true ∧ m "ssl" ≠ JSVal.str "NONE" ∧
      (op = Op.selectByValue "select[name=ssl]" (m "ssl") ∨
        ∃ f, f ∈ sslFields ∧ (m f).truthy = true ∧
          op = Op.setValue (inputSelector f) (m f)) := by
  unfold sslOps at h
  split at h
  case isTrue hc =>
    have h1 : (m "ssl").truthy = true := by
      have := hc
      simp only [Bool.and_eq_true] at this
      exact this.1
    have h2 : m "ssl" ≠ JSVal.str "NONE" := by
      have := hc
      simp only [Bool.and_eq_true, bne_iff_ne] at this
      exact this.2
    refine ⟨h1, h2, ?_⟩
    rcases List.mem_cons.mp h with h | h
    · exact Or.inl h
    · obtain ⟨f, hf, hfe⟩ := List.mem_filterMap.mp h
      split at hfe
      · exact Or.inr ⟨f, hf, by assumption, (Option.some.inj hfe).symm⟩
      · exact absurd hfe (by simp)
  case isFalse => simp at h

/-- Whether an operation is a `setValue` on the input named `field`. -/
def targetsField (field : String) : Op → Bool
  | Op.setValue sel _ => sel == inputSelector field
  | _ => false

/-- The authentication block never sets a static field, provided the
external field lookup returns no static field names. -/
theorem countP_targetsField_authOps (g : JSVal → List String)
    (hdisj : ∀ v f, f ∈ g v → f ∉ staticFields) (m : String → JSVal)
    (field : String) (hf : field ∈ staticFields) :
    (authOps g m).countP (targetsField field) = 0 := by
  refine List.countP_eq_zero.mpr ?_
  intro op hop
  obtain ⟨-, -, hshape⟩ := mem_authOps hop
  rcases hshape with rfl | ⟨f, hfg, -, rfl⟩
  · simp [targetsField]
  · have hne : f ≠ field := fun he => hdisj _ f hfg (he ▸ hf)
    simp only [targetsField]
    simp only [beq_eq_false_iff_ne, ne_eq, Bool.not_eq_true]
    exact fun he => hne (inputSelector_injective he)

/-- The SSL block never sets a static field. -/
theorem countP_targetsField_sslOps (m : String → JSVal)
    (field : String) (hf : field ∈ staticFields) :
    (sslOps m).countP (targetsField field) = 0 := by
  refine List.countP_eq_zero.mpr ?_
  intro op hop
  obtain ⟨-, -, hshape⟩ := mem_sslOps hop
  rcases hshape with rfl | ⟨f, hfs, -, rfl⟩
  · simp [targetsField]
  · have hne : f ≠ field := by
      have hnot : field ∉ sslFields := by fin_cases hf <;> decide
      exact fun he => hnot (he ▸ hfs)
    simp only [targetsField]
    simp only [beq_eq_false_iff_ne, ne_eq, Bool.not_eq_true]
    exact fun he => hne (inputSelector_injective he)

/-- The static block sets `field` exactly once when its value is truthy and
never otherwise. -/
theorem countP_targetsField_staticOps (m : String → JSVal)
    (field : String) (hf : field ∈ staticFields) :
    (staticOps m).countP (targetsField field)
      = if (m field).truthy then 1 else 0 := by
  fin_cases hf <;>
    · rw [staticOps_eq]
      by_cases h1 : (m "hostname").truthy <;> by_cases h2 : (m "port").truthy <;>
        by_cases h3 : (m "name").truthy <;>
        simp [h1, h2, h3, targetsField, List.countP_append, List.countP_cons,
          inputSelector]

/-- **C3 (amended).** `fillOutForm(M)` issues exactly one `setValue` per
static field (hostname, port, name) whose value in `M` is truthy, targeting
`input[name=field]` with `M`'s value for it, and issues no `setValue`
targeting a static field that is absent from `M` or has a falsy value; the
external authentication field lookup is assumed to return no static field
names. -/
theorem fillOutForm_static_field_ops (getFieldNames : JSVal → List String)
    (hdisj : ∀ v f, f ∈ getFieldNames v → f ∉ staticFields)
    (model : String → JSVal) (field : String) (hf : field ∈ staticFields) :
    (fillOutForm getFieldNames model).countP (targetsField field)
        = (if (model field).truthy then 1 else 0) ∧
      ((model field).truthy = true →
        Op.setValue (inputSelector field) (model field)
          ∈ fillOutForm getFieldNames model) := by
  constructor
  · unfold fillOutForm
    rw [List.countP_append, List.countP_append,
      countP_targetsField_staticOps model field hf,
      countP_targetsField_authOps getFieldNames hdisj model field hf,
      countP_targetsField_sslOps model field hf]
    omega
  · intro ht
    refine List.mem_append_left _ (List.mem_append_left _ ?_)
    rw [staticOps_eq]
    fin_cases hf <;> simp [ht]

/-- Counterexample to C3 as stated: the model `{ hostname: '' }` has the
static field `hostname` present (not `undefined`), yet `fillOutForm` issues
no `setValue` targeting it, because the guard `if (model[field])` tests
truthiness and the empty string is falsy. -/
def gfnEmpty : JSVal → List String := fun _ => []

/-- The model `{ hostname: '' }`. -/
def modelEmptyHostname : String → JSVal :=
  fun key => if key = "hostname" then JSVal.str "" else JSVal.undef

/-- **C3 (counterexample).** `hostname` is present in the model, but
`fillOutForm` issues zero `setValue` operations targeting it — refuting
"exactly one setValue per static field present in M". -/
theorem fillOutForm_present_falsy_field_skipped :
    modelEmptyHostname "hostname" ≠ JSVal.undef ∧
      (fillOutForm gfnEmpty modelEmptyHostname).countP (targetsField "hostname") = 0 := by
  constructor
  · decide
  · decide

/-- The model `{ hostname: 'localhost' }`. -/
def modelHostOnly : String → JSVal :=
  fun key => if key = "hostname" then JSVal.str "localhost" else JSVal.undef

/-- Witness for the amended C3 at the model `{ hostname: 'localhost' }`. -/
theorem fillOutForm_static_field_ops_witness :
    (fillOutForm gfnEmpty modelHostOnly).countP (targetsField "hostname")
      = if (modelHostOnly "hostname").truthy then 1 else 0 :=
  (fillOutForm_static_field_ops gfnEmpty
    (fun _ f hf => absurd hf (List.not_mem_nil f)) modelHostOnly "hostname"
    (by decide)).1

/-- **C4.** `fillOutForm(M)` performs the authentication `selectByValue` and
the authentication sub-field `setValue` operations only when
`M.authentication` is present and not `'NONE'`, and performs zero SSL
operations (neither the ssl `selectByValue` nor any of the four SSL-field
`setValue`s) when `M.ssl` is absent or equals `'NONE'`; the external
authentication field lookup is assumed to return neither static nor SSL
field names. -/
theorem fillOutForm_auth_ssl_gating (getFieldNames : JSVal → List String)
    (hdisj : ∀ v f, f ∈ getFieldNames v → f ∉ staticFields ∧ f ∉ sslFields)
    (model : String → JSVal) :
    (((∃ v, Op.selectByValue "select[name=authentication]" v
          ∈ fillOutForm getFieldNames model) ∨
        (∃ f, f ∈ getFieldNames (model "authentication") ∧
          ∃ v, Op.setValue (inputSelector f) v ∈ fillOutForm getFieldNames model)) →
      model "authentication" ≠ JSVal.undef ∧
        model "authentication" ≠ JSVal.str "NONE") ∧
    ((model "ssl" = JSVal.undef ∨ model "ssl" = JSVal.str "NONE") →
      (∀ v, Op.selectByValue "select[name=ssl]" v ∉ fillOutForm getFieldNames model) ∧
      (∀ f, f ∈ sslFields → ∀ v,
        Op.setValue (inputSelector f) v ∉ fillOutForm getFieldNames model)) := by
  constructor
  · intro hant
    by_cases hguard :
        ((model "authentication").truthy
          && (model "authentication" != JSVal.str "NONE")) = true
    · simp only [Bool.and_eq_true, bne_iff_ne] at hguard
      refine ⟨?_, hguard.2⟩
      intro he
      rw [he] at hguard
      exact absurd hguard.1 (by decide)
    · exfalso
      have hauth : authOps getFieldNames model = [] := by
        unfold authOps
        rw [if_neg]
        exact fun hc => hguard hc
      rcases hant with ⟨v, hv⟩ | ⟨f, hfg, v, hv⟩
      · unfold fillOutForm at hv
        rw [hauth] at hv
        rcases List.mem_append.mp hv with hv | hv
        · rcases List.mem_append.mp hv with hv | hv
          · obtain ⟨f, -, -, heq⟩ := mem_staticOps hv
            exact Op.noConfusion heq
          · simp at hv
        · obtain ⟨-, -, hshape⟩ := mem_sslOps hv
          rcases hshape with heq | ⟨f, -, -, heq⟩
          · have := (Op.selectByValue.injEq _ _ _ _).mp heq
            exact absurd this.1 (by decide)
          · exact Op.noConfusion heq
      · unfold fillOutForm at hv
        rw [hauth] at hv
        rcases List.mem_append.mp hv with hv | hv
        · rcases List.mem_append.mp hv with hv | hv
          · obtain ⟨f2, hf2, -, heq⟩ := mem_staticOps hv
            have hsel := ((Op.setValue.injEq _ _ _ _).mp heq).1
            have : f = f2 := inputSelector_injective hsel
            exact (hdisj _ f hfg).1 (this ▸ hf2)
          · simp at hv
        · obtain ⟨-, -, hshape⟩ := mem_sslOps hv
          rcases hshape with heq | ⟨f2, hf2, -, heq⟩
          · exact Op.noConfusion heq
          · have hsel := ((Op.setValue.injEq _ _ _ _).mp heq).1
            have : f = f2 := inputSelector_injective hsel
            exact (hdisj _ f hfg).2 (this ▸ hf2)
  · intro hssl
    have hguard :
        ((model "ssl").truthy && (model "ssl" != JSVal.str "NONE")) = false := by
      rcases hssl with he | he <;> rw [he] <;> decide
    have hsslops : sslOps model = [] := by
      unfold sslOps
      rw [if_neg]
      intro hc
      rw [hguard] at hc
      exact Bool.noConfusion hc
    constructor
    · intro v hv
      unfold fillOutForm at hv
      rw [hsslops, List.append_nil] at hv
      rcases List.mem_append.mp hv with hv | hv
      · obtain ⟨f, -, -, heq⟩ := mem_staticOps hv
        exact Op.noConfusion heq
      · obtain ⟨-, -, hshape⟩ := mem_authOps hv
        rcases hshape with heq | ⟨f, -, -, heq⟩
        · have := (Op.selectByValue.injEq _ _ _ _).mp heq
          exact absurd this.1 (by decide)
        · exact Op.noConfusion heq
    · intro f hfs v hv
      unfold fillOutForm at hv
      rw [hsslops, List.append_nil] at hv
      rcases List.mem_append.mp hv with hv | hv
      · obtain ⟨f2, hf2, -, heq⟩ := mem_staticOps hv
        have hsel := ((Op.setValue.injEq _ _ _ _).mp heq).1
        have hf2f : f = f2 := inputSelector_injective hsel
        have hnot : ∀ x ∈ staticFields, x ∉ sslFields := by decide
        exact hnot f2 hf2 (hf2f ▸ hfs)
      · obtain ⟨-, -, hshape⟩ := mem_authOps hv
        rcases hshape with heq | ⟨f2, hf2, -, heq⟩
        · exact Op.noConfusion heq
        · have hsel := ((Op.setValue.injEq _ _ _ _).mp heq).1
          have hff : f = f2 := inputSelector_injective hsel
          exact (hdisj _ f2 hf2).2 (hff ▸ hfs)

/-- A realistic external field lookup: MONGODB auth uses the username and
password fields. -/
def gfnMongo : JSVal → List String := fun _ => ["mongodb_username", "mongodb_password"]

/-- The model `{ hostname: 'localhost', ssl: 'NONE' }`. -/
def modelSslNone : String → JSVal :=
  fun key =>
    if key = "hostname" then JSVal.str "localhost"
    else if key = "ssl" then JSVal.str "NONE" else JSVal.undef

/-- Witness for C4: with `ssl = 'NONE'` no ssl selection is issued. -/
theorem fillOutForm_auth_ssl_gating_witness :
    (Op.selectByValue "select[name=ssl]" (JSVal.str "NONE")
      ∈ fillOutForm gfnMongo modelSslNone) = False :=
  eq_false
    (((fillOutForm_auth_ssl_gating gfnMongo
        (by intro v f hf; fin_cases hf <;> exact ⟨by decide, by decide⟩)
        modelSslNone).2 (Or.inr rfl)).1 (JSVal.str "NONE"))

/-- **C5.** `gotoSchemaWindow(connection, ms)` fills the form with hostname
`'localhost'` and port `27017` for any of those two keys absent from the
(possibly missing) connection model, passes already-present keys through
unchanged, and ends by clicking connect and waiting for the window at
index 0 (`waitForSchemaWindow`). -/
theorem gotoSchemaWindow_defaults (getFieldNames : JSVal → List String)
    (connection : Option (String → JSVal)) (ms : Option Nat) :
    ((connection.getD emptyModel) "hostname" = JSVal.undef →
        Op.setValue (inputSelector "hostname") (JSVal.str "localhost")
          ∈ gotoSchemaWindow getFieldNames connection ms) ∧
      ((connection.getD emptyModel) "port" = JSVal.undef →
        Op.setValue (inputSelector "port") (JSVal.num 27017)
          ∈ gotoSchemaWindow getFieldNames connection ms) ∧
      (∀ key, (connection.getD emptyModel) key ≠ JSVal.undef →
        defaultsConnection (connection.getD emptyModel) key
          = (connection.getD emptyModel) key) ∧
      List.IsSuffix [clickConnect, Op.waitForWindowStep 0 ms]
        (gotoSchemaWindow getFieldNames connection ms) := by
  refine ⟨?_, ?_, ?_, ?_⟩
  · intro h
    have hm : defaultsConnection (connection.getD emptyModel) "hostname"
        = JSVal.str "localhost" := by
      simp [defaultsConnection, h]
    simp only [gotoSchemaWindow]
    refine List.mem_cons_of_mem _ (List.mem_append_left _ ?_)
    unfold fillOutForm
    refine List.mem_append_left _ (List.mem_append_left _ ?_)
    rw [staticOps_eq, hm]
    have ht : (JSVal.str "localhost").truthy = true := by decide
    simp [ht]
  · intro h
    have hm : defaultsConnection (connection.getD emptyModel) "port"
        = JSVal.num 27017 := by
      simp [defaultsConnection, h]
    simp only [gotoSchemaWindow]
    refine List.mem_cons_of_mem _ (List.mem_append_left _ ?_)
    unfold fillOutForm
    refine List.mem_append_left _ (List.mem_append_left _ ?_)
    rw [staticOps_eq, hm]
    have ht : (JSVal.num 27017).truthy = true := by decide
    simp [ht]
  · intro key hk
    have hb : ((connection.getD emptyModel) key != JSVal.undef) = true :=
      bne_iff_ne.mpr hk
    simp [defaultsConnection, hb]
  · refine ⟨Op.waitForVisible "select[name=authentication]" none false ::
      fillOutForm getFieldNames (defaultsConnection (connection.getD emptyModel)), ?_⟩
    simp [gotoSchemaWindow]

/-- Witness for C5: with no connection argument, the default hostname is
filled in. -/
theorem gotoSchemaWindow_defaults_witness :
    Op.setValue (inputSelector "hostname") (JSVal.str "localhost")
      ∈ gotoSchemaWindow gfnEmpty none none :=
  (gotoSchemaWindow_defaults gfnEmpty none none).1 rfl

/-- The command sequencer exactly as `fillOutForm` builds it:
`var sequence = Promise.resolve();` followed by
`sequence = sequence.then(step);` for each selected step — a left fold of
`.then` (monadic bind) over the steps, starting from the resolved promise.
A step maps the chain state to a result or a rejection. -/
def buildSequence {σ ε : Type} (steps : List (σ → Except ε σ)) (s : σ) : Except ε σ :=
  steps.foldl (fun acc step => acc.bind step) (Except.ok s)

/-- Recursive characterization of the promise chain. -/
def chainRun {σ ε : Type} : List (σ → Except ε σ) → σ → Except ε σ
  | [], s => Except.ok s
  | step :: rest, s => (step s).bind (chainRun rest)

/-- Folding `.then` over the steps from any accumulated result is binding
the accumulated result into the recursive chain. -/
theorem foldl_bind_eq_chainRun {σ ε : Type} (steps : List (σ → Except ε σ))
    (acc : Except ε σ) :
    steps.foldl (fun a step => a.bind step) acc = acc.bind (chainRun steps) := by
  induction steps generalizing acc with
  | nil => cases acc <;> simp [chainRun, Except.bind]
  | cons step rest ih =>
    simp only [List.foldl_cons, chainRun]
    rw [ih]
    cases acc <;> simp [Except.bind]

/-- The built sequence is the recursive chain. -/
theorem buildSequence_eq_chainRun {σ ε : Type} (steps : List (σ → Except ε σ)) (s : σ) :
    buildSequence steps s = chainRun steps s := by
  unfold buildSequence
  rw [foldl_bind_eq_chainRun]
  simp [Except.bind]

/-- Steps run strictly sequentially: a chain of `l1 ++ l2` is the chain of
`l1` whose result (if any) feeds into the chain of `l2`. -/
theorem chainRun_append {σ ε : Type} (l1 l2 : List (σ → Except ε σ)) (s : σ) :
    chainRun (l1 ++ l2) s = (chainRun l1 s).bind (chainRun l2) := by
  induction l1 generalizing s with
  | nil => simp [chainRun, Except.bind]
  | cons step rest ih =>
    simp only [List.cons_append, chainRun]
    cases step s <;> simp [Except.bind, ih]

/-- **C8.** In a promise chain built by the command sequencer (as in
`fillOutForm`), if the steps before `step` succeed and `step`'s action
fails, the whole sequence fails with that step's original error, unmodified,
and the steps after the failing one never execute: the chain's result is
independent of them and equals the chain truncated at the failing step.
Execution is strictly sequential and order-preserving
(`chainRun_append`). -/
theorem buildSequence_fail_fast {σ ε : Type} (pre post : List (σ → Except ε σ))
    (step : σ → Except ε σ) (s s1 : σ) (e : ε)
    (hpre : buildSequence pre s = Except.ok s1)
    (hstep : step s1 = Except.error e) :
    buildSequence (pre ++ step :: post) s = Except.error e ∧
      buildSequence (pre ++ step :: post) s = buildSequence (pre ++ [step]) s := by
  have hc : chainRun pre s = Except.ok s1 := by
    rw [← buildSequence_eq_chainRun]
    exact hpre
  have key : ∀ l : List (σ → Except ε σ),
      buildSequence (pre ++ step :: l) s = Except.error e := by
    intro l
    rw [buildSequence_eq_chainRun, chainRun_append, hc]
    simp [Except.bind, chainRun, hstep]
  refine ⟨key post, ?_⟩
  rw [key post, key []]

/-- A step that increments the chain state. -/
def stepInc : Nat → Except String Nat := fun n => Except.ok (n + 1)

/-- A step that fails with the error `"boom"`. -/
def stepBoom : Nat → Except String Nat := fun _ => Except.error "boom"

/-- A step that doubles the chain state. -/
def stepDouble : Nat → Except String Nat := fun n => Except.ok (2 * n)

/-- Witness for C8: the chain fails with the failing step's original error,
and the step after the failure contributes nothing. -/
theorem buildSequence_fail_fast_witness :
    buildSequence [stepInc, stepBoom, stepDouble] 0 = Except.error "boom" ∧
      buildSequence [stepInc, stepBoom, stepDouble] 0
        = buildSequence [stepInc, stepBoom] 0 :=
  buildSequence_fail_fast [stepInc] [stepDouble] stepBoom 0 1 "boom" rfl rfl

/-- The poll loop times out (with the elapsed time of every tick spent) when
the predicate is false at every polled tick. -/
theorem pollLoop_error_of_none (P : Nat → Bool) (i : Nat) :
    ∀ fuel tick, (∀ k, tick ≤ k → k < tick + fuel → P k = false) →
      pollLoop P i fuel tick = Except.error ⟨(tick + fuel) * i, false⟩ := by
  intro fuel
  induction fuel with
  | zero =>
    intro tick h
    simp [pollLoop]
  | succ n ih =>
    intro tick h
    have hP : P tick = false := h tick (Nat.le_refl tick) (by omega)
    rw [show tick + (n + 1) = tick + 1 + n from by omega]
    simp only [pollLoop, hP, Bool.false_eq_true, if_false]
    exact ih (tick + 1) (fun k hk1 hk2 => h k (by omega) (by omega))

/-- The poll loop resolves at some polled tick whose predicate holds, as
soon as any polled tick within the budget satisfies the predicate. -/
theorem pollLoop_ok_of_exists (P : Nat → Bool) (i : Nat) :
    ∀ fuel tick, (∃ k, tick ≤ k ∧ k < tick + fuel ∧ P k = true) →
      ∃ k, tick ≤ k ∧ k < tick + fuel ∧ P k = true ∧
        pollLoop P i fuel tick = Except.ok (k * i) := by
  intro fuel
  induction fuel with
  | zero =>
    rintro tick ⟨k, hk1, hk2, -⟩
    omega
  | succ n ih =>
    intro tick hex
    by_cases hP : P tick = true
    · exact ⟨tick, Nat.le_refl tick, by omega, hP, by simp [pollLoop, hP]⟩
    · obtain ⟨k, hk1, hk2, hk3⟩ := hex
      have hkne : k ≠ tick := fun he => hP (he ▸ hk3)
      obtain ⟨k2, h1, h2, h3, h4⟩ := ih (tick + 1) ⟨k, by omega, by omega, hk3⟩
      refine ⟨k2, by omega, by omega, h3, ?_⟩
      simp only [pollLoop]
      rw [if_neg hP]
      exact h4

/-- **C9.** (spec-modelled) For every predicate `P`, timeout `T` and positive
interval `i`: `waitUntil P T i` resolves at a time `≤ T` whenever `P` is
true at some poll within `T`; and when `P` stays false at every poll within
`T`, it fails with a `Timeout` error whose carried elapsed duration exceeds
`T` and whose last observed predicate result is `false` — it never silently
resolves on timeout. -/
theorem waitUntil_contract (P : Nat → Bool) (T i : Nat) (hi : 0 < i) :
    ((∃ k, k * i ≤ T ∧ P k = true) →
        ∃ t, t ≤ T ∧ waitUntil P T i = Except.ok t) ∧
      ((∀ k, k * i ≤ T → P k = false) →
        waitUntil P T i = Except.error ⟨(T / i + 1) * i, false⟩ ∧
          T < (T / i + 1) * i) := by
  constructor
  · rintro ⟨k, hk, hP⟩
    have hkdiv : k ≤ T / i := (Nat.le_div_iff_mul_le hi).mpr hk
    obtain ⟨k2, -, h2, -, h4⟩ :=
      pollLoop_ok_of_exists P i (T / i + 1) 0 ⟨k, Nat.zero_le k, by omega, hP⟩
    refine ⟨k2 * i, ?_, h4⟩
    have hk2 : k2 ≤ T / i := by omega
    calc k2 * i ≤ T / i * i := Nat.mul_le_mul_right i hk2
      _ ≤ T := Nat.div_mul_le_self T i
  · intro hall
    constructor
    · have herr := pollLoop_error_of_none P i (T / i + 1) 0 ?_
      · rw [Nat.zero_add] at herr
        exact herr
      · intro k hk1 hk2
        apply hall
        have hk : k ≤ T / i := by omega
        calc k * i ≤ T / i * i := Nat.mul_le_mul_right i hk
          _ ≤ T := Nat.div_mul_le_self T i
    · have h1 := Nat.div_add_mod T i
      have h2 := Nat.mod_lt T hi
      have h3 : i * (T / i) = T / i * i := Nat.mul_comm _ _
      have h4 : (T / i + 1) * i = T / i * i + i := Nat.succ_mul _ _
      omega

/-- Witness for C9: an always-false predicate times out after 5000ms with
the elapsed duration 6000ms and last observed result `false`. -/
theorem waitUntil_contract_witness :
    waitUntil (fun _ => false) 5000 1000 = Except.error ⟨6000, false⟩ :=
  ((waitUntil_contract (fun _ => false) 5000 1000 (by decide)).2
    (fun _ _ => rfl)).1

/-- Poll a boolean observation once per tick from `start`, for at most
`fuel` further ticks, resolving at the first tick at which it holds. -/
def waitFor (p : Nat → Bool) : Nat → Nat → Option Nat
  | start, 0 => if p start then some start else none
  | start, fuel + 1 => if p start then some start else waitFor p (start + 1) fuel

/-- The remote UI state the operation runner observes: per selector and
tick, whether an element is visible and whether it exists; per window index
and tick, whether a new window is ready. -/
structure UIEnv where
  visible : String → Nat → Bool
  elemExists : String → Nat → Bool
  windowReadyAt : Nat → Nat → Bool

/-- When an operation, started at tick `t`, resolves: action primitives
resolve immediately; wait primitives poll their observation (a
`waitForVisible` with `reverse` set waits for the element NOT to be
visible, and webdriverio's default wait budget is 500ms); an exhausted wait
rejects (`none`). -/
def runOp (env : UIEnv) (op : Op) (t : Nat) : Option Nat :=
  match op with
  | Op.setValue _ _ => some t
  | Op.selectByValue _ _ => some t
  | Op.click _ => some t
  | Op.waitForVisible sel ms reverse =>
    waitFor (fun u => env.visible sel u == !reverse) t (orDefault ms 500)
  | Op.waitForExist sel ms => waitFor (fun u => env.elemExists sel u) t ms
  | Op.waitForWindowStep index ms =>
    waitFor (fun u => env.windowReadyAt index u) t (orDefault ms 20000)

/-- Sequential execution of a chain of operations: each operation starts
only when the previous one has resolved; a rejected operation rejects the
whole chain. -/
def runOps (env : UIEnv) : List Op → Nat → Option Nat
  | [], t => some t
  | op :: rest, t => (runOp env op t).bind (runOps env rest)

/-- A resolved poll resolves no earlier than it started, at a tick where the
observation holds. -/
theorem waitFor_some {p : Nat → Bool} :
    ∀ {fuel start t}, waitFor p start fuel = some t → start ≤ t ∧ p t = true := by
  intro fuel
  induction fuel with
  | zero =>
    intro start t h
    simp only [waitFor] at h
    split at h
    case isTrue hp =>
      obtain rfl := Option.some.inj h
      exact ⟨Nat.le_refl _, hp⟩
    case isFalse => exact Option.noConfusion h
  | succ n ih =>
    intro start t h
    simp only [waitFor] at h
    split at h
    case isTrue hp =>
      obtain rfl := Option.some.inj h
      exact ⟨Nat.le_refl _, hp⟩
    case isFalse =>
      obtain ⟨h1, h2⟩ := ih h
      exact ⟨by omega, h2⟩

/-- **C7.** Whenever a `sampleCollection` run resolves, at time `T`, there
are times `tclick ≤ tvis ≤ T` such that the sidebar click had resolved by
`tclick`, the busy indicator `#statusbar` was observed visible at `tvis`,
and it was observed not visible at the resolution time `T` itself: the
command resolves only after a full appear-then-disappear round trip of the
busy indicator following the click, not merely once the indicator is
absent. -/
theorem sampleCollection_statusbar_roundtrip (env : UIEnv) (s : String)
    (internal : Bool) (ms : Option Nat) (T : Nat)
    (h : runOps env (sampleCollection s internal ms) 0 = some T) :
    ∃ tclick tvis, tclick ≤ tvis ∧ tvis ≤ T ∧
      env.visible "#statusbar" tvis = true ∧
      env.visible "#statusbar" T = false := by
  simp only [sampleCollection, runOps, runOp, Option.some_bind] at h
  obtain ⟨t0, h0, h⟩ := Option.bind_eq_some.mp h
  obtain ⟨t1, h1, h⟩ := Option.bind_eq_some.mp h
  obtain ⟨t2, h2, h⟩ := Option.bind_eq_some.mp h
  obtain rfl := Option.some.inj h
  have w1 := waitFor_some h1
  have w2 := waitFor_some h2
  refine ⟨t0, t1, w1.1, w2.1, ?_, ?_⟩
  · have := w1.2
    simpa using this
  · have := w2.2
    simpa using this

/-- A UI history where the target element always exists and the busy
indicator is visible exactly at tick 1. -/
def envRoundTrip : UIEnv :=
  { visible := fun sel t => sel == "#statusbar" && t == 1,
    elemExists := fun _ _ => true,
    windowReadyAt := fun _ _ => false }

/-- Witness for C7: in `envRoundTrip`, `sampleCollection('db.coll', false, 5)`
resolves at time 2, after seeing the busy indicator appear (tick 1) and then
disappear (tick 2). -/
theorem sampleCollection_statusbar_roundtrip_witness :
    ∃ tclick tvis, tclick ≤ tvis ∧ tvis ≤ 2 ∧
      envRoundTrip.visible "#statusbar" tvis = true ∧
      envRoundTrip.visible "#statusbar" 2 = false :=
  sampleCollection_statusbar_roundtrip envRoundTrip "db.coll" false (some 5) 2
    (by decide)

end SpectronSupport
